import Mathlib

set_option maxRecDepth 100000

/-!
Verification of the `azure-openai-chat-backend` repository (`src/main.go`).

The repository is a single-file Go HTTP proxy.  The development below is a
shallow embedding of its pure core and of the request-handling control flow:

* `parseResponseAndReferences` / `splitResponseAndReferences` embed the Go
  function `parseResponseAndReferences` (main.go lines 71-89), built from
  faithful models of `strings.Split`, `strings.TrimSpace` and the
  line-collection loop.
* `formatPromptWithReferenceRequest` embeds the Go function of the same name
  (lines 58-68).
* `chatHandler` embeds the handler `chatHandler` (lines 91-201): JSON body
  decoding, upstream request construction from the process configuration,
  the single outbound call (modelled as an oracle from the outbound request
  to an outcome), and every error branch with the exact status codes and
  messages the Go code passes to `http.Error`.

Strings are handled at the `List Char` level (a Go `string` is a byte
sequence; all literals involved are ASCII, and `strings.Split`,
`strings.TrimSpace` and `range`-free indexing used here act on it exactly as
the rune-list model does), with `String` wrappers for the public entry
points.
-/

/-- Go `unicode.IsSpace`: the Unicode `White_Space` property.  The code
points are exactly those of Go's table (Latin-1 fast path `'\t'`, `'\n'`,
`'\v'`, `'\f'`, `'\r'`, `' '`, U+0085, U+00A0, plus the `White_Space`
ranges). -/
def goIsSpace (c : Char) : Bool :=
  let n := c.toNat
  (0x9 ≤ n && n ≤ 0xD) || n == 0x20 || n == 0x85 || n == 0xA0 ||
  n == 0x1680 || (0x2000 ≤ n && n ≤ 0x200A) || n == 0x2028 || n == 0x2029 ||
  n == 0x202F || n == 0x205F || n == 0x3000

/-- Go `strings.TrimSpace`: drop `unicode.IsSpace` characters from both
ends. -/
def trimSpaceList (l : List Char) : List Char :=
  (((l.dropWhile goIsSpace).reverse.dropWhile goIsSpace)).reverse

/-- `strings.TrimSpace` on `String`. -/
def trimSpace (s : String) : String :=
  ⟨trimSpaceList s.data⟩

/-- The left-trimming half of `trimSpaceList`. -/
def trimLeftSpace (l : List Char) : List Char :=
  l.dropWhile goIsSpace

/-- The right-trimming half of `trimSpaceList`. -/
def trimRightSpace (l : List Char) : List Char :=
  (l.reverse.dropWhile goIsSpace).reverse

/-- One step of Go `strings.Split` with a non-empty separator: locate the
first (leftmost) occurrence of `sep`.  Returns `none` when `sep` does not
occur; otherwise `some (before, after)` where `before` is the segment
strictly before the first occurrence and `after` is the remainder strictly
after it (the next occurrence is then searched from `after`, so matches are
non-overlapping, as in Go). -/
def splitOnce (sep : List Char) : List Char → Option (List Char × List Char)
  | [] => none
  | c :: rest =>
    if sep.isPrefixOf (c :: rest) then
      some ([], (c :: rest).drop sep.length)
    else
      match splitOnce sep rest with
      | none => none
      | some (b, a) => some (c :: b, a)

/-- Fuelled worker for `stringsSplit`.  Each found occurrence of a non-empty
`sep` consumes at least one character, so fuel `l.length + 1` always
suffices (`splitGoFuel_congr` below). -/
def splitGoFuel (sep : List Char) : Nat → List Char → List (List Char)
  | 0, l => [l]
  | fuel + 1, l =>
    match splitOnce sep l with
    | none => [l]
    | some (b, a) => b :: splitGoFuel sep fuel a

/-- Go `strings.Split(l, sep)` for a non-empty separator: the segments of
`l` around the non-overlapping, left-to-right occurrences of `sep`. -/
def stringsSplit (sep l : List Char) : List (List Char) :=
  splitGoFuel sep (l.length + 1) l

/-- Go `strings.Split(s, "\n")`: split on every newline character. -/
def splitLines : List Char → List (List Char)
  | [] => [[]]
  | c :: rest =>
    if c = '\n' then
      [] :: splitLines rest
    else
      match splitLines rest with
      | [] => [[c]]
      | line :: lines => (c :: line) :: lines

/-- The literal marker the Go code splits on. -/
def referencesMarker : List Char := "References:".data

/-- The reference-collecting loop of `parseResponseAndReferences`
(main.go lines 81-86): for each line of the references text, trim it and
keep it when non-blank. -/
def collectReferences (referencesText : List Char) : List (List Char) :=
  (splitLines referencesText).filterMap fun line =>
    let trimmed := trimSpaceList line
    if trimmed = [] then none else some trimmed

/-- Embedding of Go `parseResponseAndReferences` (main.go lines 71-89):
`parts := strings.Split(content, "References:")`; if `len(parts) < 2` the
content is returned unchanged with no references; otherwise the answer is
`TrimSpace(parts[0])` and the references are collected from
`TrimSpace(parts[1])`.  (`stringsSplit` always returns at least one
segment, so `len(parts) < 2` is exactly the failure of the
two-element pattern.) -/
def parseResponseAndReferences (content : List Char) :
    List Char × List (List Char) :=
  match stringsSplit referencesMarker content with
  | p0 :: p1 :: _ =>
    let mainContent := trimSpaceList p0
    let referencesText := trimSpaceList p1
    (mainContent, collectReferences referencesText)
  | _ => (content, [])

/-- `String`-level wrapper of `parseResponseAndReferences`; this is the
operation the specification calls `splitResponseAndReferences`. -/
def splitResponseAndReferences (content : String) : String × List String :=
  (⟨(parseResponseAndReferences content.data).1⟩,
   (parseResponseAndReferences content.data).2.map fun l => ⟨l⟩)

/-- `parts[1]` of `strings.Split` when at least two parts exist: the
segment of the remainder before the next (non-overlapping) occurrence of
the marker, or the whole remainder when the marker occurs no further. -/
def headSegment (a : List Char) : List Char :=
  match splitOnce referencesMarker a with
  | none => a
  | some (b, _) => b

/-- Modelled from the specification's wording, for comparison with the
code: the portion after the FIRST occurrence of the marker — in its
entirety — is trimmed and split into reference lines.  (The code instead
keeps only the segment up to the next occurrence of the marker.) -/
def specReferencesAfterFirst (text : String) : List String :=
  match splitOnce referencesMarker text.data with
  | none => []
  | some (_, after) => (collectReferences (trimSpaceList after)).map fun l => ⟨l⟩

/-! ## The handler: data model (main.go lines 17-55) -/

/-- Go `ChatRequest` (main.go lines 17-19). -/
structure ChatRequest where
  message : String
deriving DecidableEq

/-- Go `ChatResponse` (main.go lines 36-39). -/
structure ChatResponse where
  response : String
  references : List String
deriving DecidableEq

/-- The anonymous `Message` struct nested in Go `ChatChoice`. -/
structure ChoiceMessage where
  content : String
deriving DecidableEq

/-- Go `ChatChoice` (main.go lines 41-47). -/
structure ChatChoice where
  message : ChoiceMessage
  index : Int
  finish_reason : String
deriving DecidableEq

/-- Go `AzureResponse` (main.go lines 49-55). -/
structure AzureResponse where
  id : String
  object : String
  created : Int
  model : String
  choices : List ChatChoice
deriving DecidableEq

/-! ## JSON values and decoding of the inbound body -/

/-- A JSON value (numbers as integers suffice: no claim involves JSON
numbers). -/
inductive Json where
  | null
  | bool (b : Bool)
  | num (n : Int)
  | str (s : String)
  | arr (elems : List Json)
  | obj (fields : List (String × Json))

/-- The inbound HTTP request body: either bytes holding no valid JSON
value, or a JSON value. -/
inductive RequestBody where
  | notJson
  | json (j : Json)

/-- Go `encoding/json` key matching for the field tagged
`json:"message"`: an exact match is preferred, otherwise the match is
case-insensitive (`strings.EqualFold`); with a single candidate field the
net effect is fold-equality.  Folding is modelled on ASCII, which covers
every key the claims exercise. -/
def keyMatchesMessage (k : String) : Bool :=
  k.data.map Char.toLower == "message".data

/-- One object entry processed by Go `json.Unmarshal` into `ChatRequest`:
a matching key with a string value sets the field (later duplicates
overwrite), a `null` value leaves it unchanged, a value of any other type
is an `UnmarshalTypeError` (the decoder records the error, so the overall
decode fails), and non-matching keys are skipped. -/
def setMessageField (acc : Option ChatRequest) (kv : String × Json) :
    Option ChatRequest :=
  match acc with
  | none => none
  | some cr =>
    if keyMatchesMessage kv.1 then
      match kv.2 with
      | .str s => some ⟨s⟩
      | .null => some cr
      | _ => none
    else some cr

/-- Go `json.NewDecoder(r.Body).Decode(&chatRequest)` (main.go line 93):
succeeds on a JSON object (fields processed in order) and on `null`
(leaving the zero value), and fails on a top-level value of any other
type. -/
def unmarshalChatRequest : Json → Option ChatRequest
  | .null => some ⟨""⟩
  | .obj fields => fields.foldl setMessageField (some ⟨""⟩)
  | _ => none

/-- Decoding the raw inbound body: syntactically invalid JSON fails, a
JSON value is unmarshalled as in Go. -/
def decodeChatRequest : RequestBody → Option ChatRequest
  | .notJson => none
  | .json j => unmarshalChatRequest j

/-! ## Upstream request construction (main.go lines 99-160) -/

/-- The process configuration read from the environment (main.go lines
99-100, 126-136). -/
structure Config where
  apiKey : String
  endpoint : String
  searchEndpoint : String
  searchKey : String
  searchIndex : String
deriving DecidableEq

/-- The fixed instruction block `formatPromptWithReferenceRequest` appends
after the user message (the Go raw literal of main.go lines 59-67,
without the leading `%s`). -/
def citationTemplate : String :=
  "\n\nPlease provide a detailed response with references. Include:\n1. A clear explanation\n2. Supporting evidence\n3. Specific citations\n4. A numbered list of references at the end\n\nFormat references using a standard academic format."

/-- Embedding of Go `formatPromptWithReferenceRequest` (main.go lines
58-68): `fmt.Sprintf` of the template with the message substituted for
`%s` at the front. -/
def formatPromptWithReferenceRequest (message : String) : String :=
  message ++ citationTemplate

/-- The system-role content of the outbound request (the Go raw literal of
main.go lines 106-115, whitespace exactly as in the source). -/
def systemPrompt : String :=
  "You are a helpful assistant that provides detailed, accurate information with references.\n            When providing information:\n            1. Include relevant citations and sources\n            2. Use a consistent citation format\n            3. List all references at the end of your response\n            4. Prefer academic sources, official documentation, and reliable websites\n            5. Format your response as follows:\n                - Main answer\n                - Supporting details\n                - References (numbered list)"

/-- The `role_information` string of the search data source (main.go line
131). -/
def roleInformationText : String :=
  "You are an AI assistant that helps people with questions using the provided documentation."

/-- One entry of the outbound `messages` array. -/
structure UpstreamMessage where
  role : String
  content : String
deriving DecidableEq

/-- The outbound request the handler sends to the completion endpoint: the
target URL and `api-key` header (main.go lines 154-160) and the JSON body
of lines 102-146.  The floating-point generation parameters
(`temperature` 0.9, `top_p` 0.95, `frequency_penalty` 0.5,
`presence_penalty` 0.5) are fixed literals never examined by any claim
and are left out of the model. -/
structure UpstreamRequest where
  url : String
  apiKey : String
  messages : List UpstreamMessage
  searchEndpoint : String
  searchKey : String
  searchIndex : String
  queryType : String
  semanticConfiguration : String
  roleInformation : String
  strictness : Nat
  maxTokens : Nat
deriving DecidableEq

/-- The outbound request built for a decoded message (main.go lines
99-160). -/
def buildUpstreamRequest (cfg : Config) (message : String) : UpstreamRequest :=
  { url := cfg.endpoint
    apiKey := cfg.apiKey
    messages := [⟨"system", systemPrompt⟩,
                 ⟨"user", formatPromptWithReferenceRequest message⟩]
    searchEndpoint := cfg.searchEndpoint
    searchKey := cfg.searchKey
    searchIndex := cfg.searchIndex
    queryType := "simple"
    semanticConfiguration := "default"
    roleInformation := roleInformationText
    strictness := 3
    maxTokens := 2000 }

/-! ## The handler (main.go lines 91-201) -/

/-- The observable outcome of the single outbound exchange, from
`client.Do` through `json.Unmarshal` of the upstream body: transport
failure, body-read failure, a body that does not unmarshal as
`AzureResponse`, or a decoded response.  (`json.Marshal` of the
fixed-shape request map cannot fail; the `http.NewRequest` branch fails
only for an unparsable configured URL and is not modelled.) -/
inductive UpstreamOutcome where
  | sendError
  | readError
  | decodeError
  | decoded (resp : AzureResponse)

/-- What the handler writes back: `http.Error` with a status and message,
or a JSON-encoded `ChatResponse` with status 200. -/
inductive HandlerResult where
  | httpError (status : Nat) (message : String)
  | ok (resp : ChatResponse)
deriving DecidableEq

/-- Embedding of Go `chatHandler` (main.go lines 91-201).  The second
component of the result is the list of outbound upstream requests the
handler issued, in order; `upstream` is the oracle standing for the
outbound exchange. -/
def chatHandler (cfg : Config) (body : RequestBody)
    (upstream : UpstreamRequest → UpstreamOutcome) :
    HandlerResult × List UpstreamRequest :=
  match decodeChatRequest body with
  | none => (.httpError 400 "Invalid request payload", [])
  | some chatRequest =>
    let req := buildUpstreamRequest cfg chatRequest.message
    match upstream req with
    | .sendError => (.httpError 500 "Failed to send request to Azure OpenAI", [req])
    | .readError => (.httpError 500 "Failed to read response from Azure OpenAI", [req])
    | .decodeError => (.httpError 500 "Failed to unmarshal response data", [req])
    | .decoded azureResponse =>
      match azureResponse.choices with
      | [] => (.httpError 500 "No response choices returned", [req])
      | choice :: _ =>
        let mainContent := (parseResponseAndReferences choice.message.content.data).1
        let references := (parseResponseAndReferences choice.message.content.data).2
        (.ok ⟨⟨mainContent⟩, references.map fun l => ⟨l⟩⟩, [req])

/-! ## Lemmas about the split primitives -/

theorem isPrefixOf_true (l₁ l₂ : List Char) :
    l₁.isPrefixOf l₂ = true ↔ l₁ <+: l₂ := by
  simp

theorem not_prefix_of_false {l₁ l₂ : List Char}
    (h : l₁.isPrefixOf l₂ = false) : ¬ l₁ <+: l₂ := by
  intro hp
  rw [(isPrefixOf_true l₁ l₂).mpr hp] at h
  cases h

theorem splitOnce_decomp (sep : List Char) :
    ∀ l b a, splitOnce sep l = some (b, a) → l = b ++ sep ++ a := by
  intro l
  induction l with
  | nil => intro b a h; simp [splitOnce] at h
  | cons c rest ih =>
    intro b a h
    by_cases hp : sep <+: c :: rest
    · simp [splitOnce, hp] at h
      obtain ⟨hb, ha⟩ := h
      subst hb
      subst ha
      obtain ⟨t, ht⟩ := hp
      rw [← ht, List.drop_left]
      simp
    · cases hr : splitOnce sep rest with
      | none => simp [splitOnce, hp, hr] at h
      | some p =>
        obtain ⟨b', a'⟩ := p
        simp [splitOnce, hp, hr] at h
        obtain ⟨hb, ha⟩ := h
        subst hb
        subst ha
        have hrest := ih b' a' hr
        simp [hrest]

theorem splitOnce_shrinks (sep : List Char) (hsep : sep ≠ []) :
    ∀ l b a, splitOnce sep l = some (b, a) → a.length < l.length := by
  intro l b a h
  have hd := splitOnce_decomp sep l b a h
  have hpos : 0 < sep.length := List.length_pos.mpr hsep
  rw [hd]
  simp only [List.length_append]
  omega

theorem splitGoFuel_congr (sep : List Char) (hsep : sep ≠ []) :
    ∀ f₁ f₂ l, l.length < f₁ → l.length < f₂ →
      splitGoFuel sep f₁ l = splitGoFuel sep f₂ l := by
  intro f₁
  induction f₁ with
  | zero => intro f₂ l h₁ _; omega
  | succ n ih =>
    intro f₂ l h₁ h₂
    cases f₂ with
    | zero => omega
    | succ m =>
      cases hs : splitOnce sep l with
      | none => simp [splitGoFuel, hs]
      | some p =>
        obtain ⟨b, a⟩ := p
        have hlen := splitOnce_shrinks sep hsep l b a hs
        simp only [splitGoFuel, hs, List.cons.injEq, true_and]
        exact ih m a (by omega) (by omega)

theorem stringsSplit_of_none (sep l : List Char)
    (h : splitOnce sep l = none) : stringsSplit sep l = [l] := by
  simp [stringsSplit, splitGoFuel, h]

theorem stringsSplit_of_some (sep l b a : List Char) (hsep : sep ≠ [])
    (h : splitOnce sep l = some (b, a)) :
    stringsSplit sep l = b :: stringsSplit sep a := by
  have hlen := splitOnce_shrinks sep hsep l b a h
  have h1 : stringsSplit sep l = b :: splitGoFuel sep l.length a := by
    simp [stringsSplit, splitGoFuel, h]
  rw [h1]
  unfold stringsSplit
  exact congrArg (b :: ·)
    (splitGoFuel_congr sep hsep l.length (a.length + 1) a (by omega) (by omega))

theorem splitOnce_none_iff (sep : List Char) (hsep : sep ≠ []) (l : List Char) :
    splitOnce sep l = none ↔ ¬ sep <:+: l := by
  constructor
  · induction l with
    | nil =>
      intro _ hinf
      obtain ⟨s, t, hst⟩ := hinf
      rw [List.append_assoc] at hst
      obtain ⟨-, h2⟩ := List.append_eq_nil.mp hst
      obtain ⟨h3, -⟩ := List.append_eq_nil.mp h2
      exact hsep h3
    | cons c rest ih =>
      intro h hinf
      by_cases hp : sep <+: c :: rest
      · simp [splitOnce, hp] at h
      · cases hr : splitOnce sep rest with
        | some p => obtain ⟨b, a⟩ := p; simp [splitOnce, hp, hr] at h
        | none =>
          obtain ⟨s, t, hst⟩ := hinf
          cases s with
          | nil =>
            rw [List.nil_append] at hst
            exact hp ⟨t, hst⟩
          | cons d s' =>
            simp only [List.cons_append, List.cons.injEq] at hst
            exact ih hr ⟨s', t, hst.2⟩
  · intro hni
    cases hs : splitOnce sep l with
    | none => rfl
    | some p =>
      obtain ⟨b, a⟩ := p
      exact absurd ⟨b, a, (splitOnce_decomp sep l b a hs).symm⟩ hni

theorem splitOnce_at_first (sep a : List Char) (hsep : sep ≠ []) :
    ∀ b, (∀ i, i < b.length → sep.isPrefixOf ((b ++ sep ++ a).drop i) = false) →
      splitOnce sep (b ++ sep ++ a) = some (b, a) := by
  intro b
  induction b with
  | nil =>
    intro _
    obtain ⟨s₀, stail, rfl⟩ : ∃ c r, sep = c :: r := by
      cases sep with
      | nil => exact absurd rfl hsep
      | cons c r => exact ⟨c, r, rfl⟩
    show splitOnce (s₀ :: stail) ([] ++ (s₀ :: stail) ++ a) = some ([], a)
    rw [List.nil_append, List.cons_append]
    have hp : (s₀ :: stail) <+: s₀ :: (stail ++ a) := ⟨a, by simp⟩
    simp [splitOnce, hp]
  | cons c b' ih =>
    intro hfirst
    have hrec0 : splitOnce sep (b' ++ sep ++ a) = some (b', a) := by
      refine ih fun i hi => ?_
      have := hfirst (i + 1) (by simp; omega)
      simpa [List.cons_append] using this
    have hrec : splitOnce sep (b' ++ (sep ++ a)) = some (b', a) := by
      simpa [List.append_assoc] using hrec0
    have h0 : ¬ sep <+: c :: (b' ++ (sep ++ a)) := by
      apply not_prefix_of_false
      have := hfirst 0 (by simp)
      simpa [List.append_assoc] using this
    show splitOnce sep ((c :: b') ++ sep ++ a) = some (c :: b', a)
    have hshape : (c :: b') ++ sep ++ a = c :: (b' ++ (sep ++ a)) := by simp
    rw [hshape]
    simp [splitOnce, h0, hrec]

theorem splitOnce_first_no_marker (sep : List Char) (hsep : sep ≠ []) :
    ∀ l b a, splitOnce sep l = some (b, a) → ¬ sep <:+: b := by
  intro l
  induction l with
  | nil => intro b a h; simp [splitOnce] at h
  | cons c rest ih =>
    intro b a h hinf
    by_cases hp : sep <+: c :: rest
    · simp [splitOnce, hp] at h
      obtain ⟨hb, -⟩ := h
      subst hb
      obtain ⟨s, t, hst⟩ := hinf
      rw [List.append_assoc] at hst
      obtain ⟨-, h2⟩ := List.append_eq_nil.mp hst
      obtain ⟨h3, -⟩ := List.append_eq_nil.mp h2
      exact hsep h3
    · cases hr : splitOnce sep rest with
      | none => simp [splitOnce, hp, hr] at h
      | some p =>
        obtain ⟨b', a'⟩ := p
        simp [splitOnce, hp, hr] at h
        obtain ⟨hb, ha⟩ := h
        subst hb
        subst ha
        obtain ⟨s, t, hst⟩ := hinf
        cases s with
        | nil =>
          rw [List.nil_append] at hst
          have hdec := splitOnce_decomp sep rest b' a' hr
          apply hp
          refine ⟨t ++ (sep ++ a'), ?_⟩
          have hL : sep ++ (t ++ (sep ++ a')) = (sep ++ t) ++ (sep ++ a') := by
            simp [List.append_assoc]
          rw [hL, hst, hdec]
          simp
        | cons d s' =>
          simp only [List.cons_append, List.cons.injEq] at hst
          exact ih b' a' hr ⟨s', t, hst.2⟩

/-! ## Lemmas about trimming -/

theorem trimSpaceList_eq (l : List Char) :
    trimSpaceList l = trimRightSpace (trimLeftSpace l) := rfl

theorem dropWhile_idem (p : Char → Bool) (l : List Char) :
    (l.dropWhile p).dropWhile p = l.dropWhile p := by
  induction l with
  | nil => rfl
  | cons c rest ih =>
    by_cases h : p c
    · simp [List.dropWhile_cons, h, ih]
    · simp [List.dropWhile_cons, h]

theorem dropWhile_sub (p : Char → Bool) (l : List Char) :
    ∃ s, s ++ l.dropWhile p = l := by
  induction l with
  | nil => exact ⟨[], rfl⟩
  | cons c rest ih =>
    by_cases h : p c
    · obtain ⟨s, hs⟩ := ih
      exact ⟨c :: s, by simp [List.dropWhile_cons, h, hs]⟩
    · exact ⟨[], by simp [List.dropWhile_cons, h]⟩

theorem trimSpaceList_sub (l : List Char) :
    ∃ s t, s ++ trimSpaceList l ++ t = l := by
  obtain ⟨s₁, hs₁⟩ := dropWhile_sub goIsSpace l
  obtain ⟨s₂, hs₂⟩ := dropWhile_sub goIsSpace (l.dropWhile goIsSpace).reverse
  refine ⟨s₁, s₂.reverse, ?_⟩
  have hm : l.dropWhile goIsSpace = trimSpaceList l ++ s₂.reverse := by
    have h := congrArg List.reverse hs₂
    simpa [trimSpaceList] using h.symm
  rw [List.append_assoc, ← hm, hs₁]

theorem trimRightSpace_idem (l : List Char) :
    trimRightSpace (trimRightSpace l) = trimRightSpace l := by
  simp [trimRightSpace, dropWhile_idem]

theorem trimLeftSpace_idem (l : List Char) :
    trimLeftSpace (trimLeftSpace l) = trimLeftSpace l :=
  dropWhile_idem goIsSpace l

theorem head_not_space_of_left_fix (c : Char) (rest : List Char)
    (h : trimLeftSpace (c :: rest) = c :: rest) : goIsSpace c = false := by
  by_cases hc : goIsSpace c
  · exfalso
    obtain ⟨s, hs⟩ := dropWhile_sub goIsSpace rest
    have hlen := congrArg List.length h
    rw [trimLeftSpace, List.dropWhile_cons] at hlen
    simp only [hc, if_true] at hlen
    have hlen2 := congrArg List.length hs
    simp only [List.length_append, List.length_cons] at hlen hlen2
    omega
  · simpa using hc

theorem dropWhile_append_last (p : Char → Bool) (c : Char) :
    ∀ v : List Char, (v ++ [c]).dropWhile p = [] ∨
      ∃ w, (v ++ [c]).dropWhile p = w ++ [c] := by
  intro v
  induction v with
  | nil =>
    by_cases h : p c
    · left; simp [List.dropWhile_cons, h]
    · right; exact ⟨[], by simp [List.dropWhile_cons, h]⟩
  | cons d v' ih =>
    by_cases h : p d
    · rw [List.cons_append, List.dropWhile_cons]
      simp only [h, if_true]
      exact ih
    · right
      refine ⟨d :: v', ?_⟩
      rw [List.cons_append, List.dropWhile_cons]
      simp [h]

theorem trimRightSpace_cons (c : Char) (rest : List Char) :
    trimRightSpace (c :: rest) = [] ∨
      ∃ y, trimRightSpace (c :: rest) = c :: y := by
  have hR : trimRightSpace (c :: rest) =
      ((rest.reverse ++ [c]).dropWhile goIsSpace).reverse := by
    unfold trimRightSpace
    rw [List.reverse_cons]
  rcases dropWhile_append_last goIsSpace c rest.reverse with h0 | ⟨w, hw⟩
  · left
    rw [hR, h0]
    rfl
  · right
    refine ⟨w.reverse, ?_⟩
    rw [hR, hw, List.reverse_append]
    rfl

theorem left_fix_of_trimRight (l : List Char) (h : trimLeftSpace l = l) :
    trimLeftSpace (trimRightSpace l) = trimRightSpace l := by
  cases l with
  | nil => rfl
  | cons c rest =>
    have hc := head_not_space_of_left_fix c rest h
    rcases trimRightSpace_cons c rest with h0 | ⟨y, hy⟩
    · rw [h0]; rfl
    · rw [hy]
      simp [trimLeftSpace, List.dropWhile_cons, hc]

theorem trimSpaceList_idem (l : List Char) :
    trimSpaceList (trimSpaceList l) = trimSpaceList l := by
  rw [trimSpaceList_eq, trimSpaceList_eq]
  rw [left_fix_of_trimRight _ (trimLeftSpace_idem l)]
  exact trimRightSpace_idem _

theorem trimSpace_idem (s : String) : trimSpace (trimSpace s) = trimSpace s := by
  simp only [trimSpace]
  exact congrArg String.mk (trimSpaceList_idem s.data)

/-! ## Characterisation of the parse -/

theorem referencesMarker_ne_nil : referencesMarker ≠ [] := by decide

theorem parse_of_no_marker (content : List Char)
    (h : splitOnce referencesMarker content = none) :
    parseResponseAndReferences content = (content, []) := by
  unfold parseResponseAndReferences
  rw [stringsSplit_of_none _ _ h]

theorem parse_of_marker (content b a : List Char)
    (h : splitOnce referencesMarker content = some (b, a)) :
    parseResponseAndReferences content =
      (trimSpaceList b, collectReferences (trimSpaceList (headSegment a))) := by
  unfold parseResponseAndReferences
  rw [stringsSplit_of_some _ _ _ _ referencesMarker_ne_nil h]
  cases ha : splitOnce referencesMarker a with
  | none =>
    rw [stringsSplit_of_none _ _ ha]
    simp [headSegment, ha]
  | some p =>
    obtain ⟨b', a'⟩ := p
    rw [stringsSplit_of_some _ _ _ _ referencesMarker_ne_nil ha]
    simp [headSegment, ha]

/-! ## Helper lemmas about the handler -/

theorem chatHandler_calls (cfg : Config) (body : RequestBody)
    (up : UpstreamRequest → UpstreamOutcome) (cr : ChatRequest)
    (h : decodeChatRequest body = some cr) :
    (chatHandler cfg body up).2 = [buildUpstreamRequest cfg cr.message] := by
  unfold chatHandler
  rw [h]
  dsimp only
  cases up (buildUpstreamRequest cfg cr.message) with
  | sendError => rfl
  | readError => rfl
  | decodeError => rfl
  | decoded azureResponse =>
    dsimp only
    cases azureResponse.choices with
    | nil => rfl
    | cons choice rest => rfl

theorem decode_message_obj (m : String) :
    decodeChatRequest (.json (.obj [("message", .str m)])) = some ⟨m⟩ := by
  show unmarshalChatRequest (.obj [("message", .str m)]) = some ⟨m⟩
  unfold unmarshalChatRequest
  simp [List.foldl, setMessageField, keyMatchesMessage]

/-! ## Claim C1 -/

/-- C1 counterexample: on `"A References: B References: C"` the code keeps
only the segment between the first and second marker occurrences,
yielding `["B"]`, while the claimed reading (the entire portion after the
first occurrence) yields `["B References: C"]`. -/
theorem claim_C1_counterexample :
    (splitResponseAndReferences "A References: B References: C").2 = ["B"] ∧
    specReferencesAfterFirst "A References: B References: C" =
      ["B References: C"] ∧
    (splitResponseAndReferences "A References: B References: C").2 ≠
      specReferencesAfterFirst "A References: B References: C" :=
  ⟨by decide, by decide, by decide⟩

/-- C1 (amended): for text decomposing as `before ++ "References:" ++ after`
at the FIRST marker occurrence (no occurrence starts inside `before`), the
answer is `before` trimmed, and the references are collected from the
portion of `after` that precedes the NEXT marker occurrence (the whole of
`after` when the marker occurs exactly once) — trimmed, split into lines,
each line trimmed, blank lines discarded, order preserved. -/
theorem claim_C1 (text before after : String)
    (hdec : text.data = before.data ++ referencesMarker ++ after.data)
    (hfirst : ∀ i, i < before.data.length →
      referencesMarker.isPrefixOf (text.data.drop i) = false) :
    splitResponseAndReferences text =
      (⟨trimSpaceList before.data⟩,
       (collectReferences (trimSpaceList (headSegment after.data))).map
         fun l => ⟨l⟩) := by
  have hsp : splitOnce referencesMarker text.data =
      some (before.data, after.data) := by
    rw [hdec]
    apply splitOnce_at_first _ _ referencesMarker_ne_nil
    intro i hi
    have h := hfirst i hi
    rw [hdec] at h
    exact h
  unfold splitResponseAndReferences
  rw [parse_of_marker _ _ _ hsp]

theorem claim_C1_witness :
    ("Q References: R".data = "Q ".data ++ referencesMarker ++ " R".data) ∧
    (∀ i, i < "Q ".data.length →
      referencesMarker.isPrefixOf ("Q References: R".data.drop i) = false) ∧
    splitResponseAndReferences "Q References: R" =
      (⟨trimSpaceList "Q ".data⟩,
       (collectReferences (trimSpaceList (headSegment " R".data))).map
         fun l => ⟨l⟩) :=
  ⟨by decide, by decide,
   claim_C1 "Q References: R" "Q " " R" (by decide) (by decide)⟩

/-! ## Claim C2 -/

/-- C2 counterexample: `" padded "` contains no marker, yet the code
returns it unchanged — not trimmed as the claim states. -/
theorem claim_C2_counterexample :
    ¬ referencesMarker <:+: " padded ".data ∧
    splitResponseAndReferences " padded " ≠ (trimSpace " padded ", []) :=
  ⟨(splitOnce_none_iff referencesMarker referencesMarker_ne_nil _).mp
    (by decide),
   by decide⟩

/-- C2 (amended): when `text` contains no occurrence of "References:",
`splitResponseAndReferences` returns `(text, [])` — the text UNCHANGED
(the Go code returns `content`, not `TrimSpace(content)`, in this
branch), with an empty reference list. -/
theorem claim_C2 (text : String) (h : ¬ referencesMarker <:+: text.data) :
    splitResponseAndReferences text = (text, []) := by
  have hn : splitOnce referencesMarker text.data = none :=
    (splitOnce_none_iff referencesMarker referencesMarker_ne_nil _).mpr h
  unfold splitResponseAndReferences
  rw [parse_of_no_marker _ hn]
  rfl

theorem claim_C2_witness :
    ¬ referencesMarker <:+: "hello".data ∧
    splitResponseAndReferences "hello" = ("hello", []) := by
  have h : ¬ referencesMarker <:+: "hello".data :=
    (splitOnce_none_iff referencesMarker referencesMarker_ne_nil _).mp
      (by decide)
  exact ⟨h, claim_C2 "hello" h⟩

/-! ## Claims C3 and C4 -/

/-- C3: the concrete example from the specification. -/
theorem claim_C3 :
    splitResponseAndReferences "Answer body\nReferences:\n1. A\n\n2. B\n" =
      ("Answer body", ["1. A", "2. B"]) := by decide

/-- C4: the concrete example from the specification. -/
theorem claim_C4 :
    splitResponseAndReferences "X References: \n  \n Source one  " =
      ("X", ["Source one"]) := by decide

/-! ## Claim C5 -/

/-- C5: for every message `m` decoded from the valid JSON body
`{"message": m}` the handler issues exactly one outbound call, whose
user-role content is `m` followed verbatim by the fixed citation-request
template, whatever the upstream oracle answers. -/
theorem claim_C5 (cfg : Config) (m : String)
    (up : UpstreamRequest → UpstreamOutcome) :
    (chatHandler cfg (.json (.obj [("message", .str m)])) up).2 =
      [buildUpstreamRequest cfg m] ∧
    (buildUpstreamRequest cfg m).messages =
      [⟨"system", systemPrompt⟩, ⟨"user", m ++ citationTemplate⟩] :=
  ⟨chatHandler_calls cfg _ up ⟨m⟩ (decode_message_obj m), rfl⟩

/-! ## Claim C6 -/

/-- C6: an upstream response decoding to an empty choices sequence yields
HTTP 500 with message "No response choices returned" and no success
output. -/
theorem claim_C6 (cfg : Config) (body : RequestBody) (cr : ChatRequest)
    (az : AzureResponse) (hdec : decodeChatRequest body = some cr)
    (hchoices : az.choices = []) :
    chatHandler cfg body (fun _ => .decoded az) =
      (.httpError 500 "No response choices returned",
       [buildUpstreamRequest cfg cr.message]) := by
  unfold chatHandler
  rw [hdec]
  dsimp only
  rw [hchoices]

theorem claim_C6_witness :
    decodeChatRequest (.json (.obj [("message", .str "hi")])) = some ⟨"hi"⟩ ∧
    (⟨"id", "chat.completion", 0, "gpt", []⟩ : AzureResponse).choices = [] ∧
    chatHandler ⟨"k", "e", "se", "sk", "si"⟩
        (.json (.obj [("message", .str "hi")]))
        (fun _ => .decoded ⟨"id", "chat.completion", 0, "gpt", []⟩) =
      (.httpError 500 "No response choices returned",
       [buildUpstreamRequest ⟨"k", "e", "se", "sk", "si"⟩ "hi"]) :=
  ⟨by decide, rfl, claim_C6 _ _ ⟨"hi"⟩ _ (by decide) rfl⟩

/-! ## Claim C7 -/

/-- C7: a body that does not decode as a `ChatRequest` yields HTTP 400
with message "Invalid request payload" and no outbound upstream call. -/
theorem claim_C7 (cfg : Config) (body : RequestBody)
    (up : UpstreamRequest → UpstreamOutcome)
    (h : decodeChatRequest body = none) :
    chatHandler cfg body up = (.httpError 400 "Invalid request payload", []) := by
  unfold chatHandler
  rw [h]

theorem claim_C7_witness :
    decodeChatRequest .notJson = none ∧
    chatHandler ⟨"k", "e", "se", "sk", "si"⟩ .notJson (fun _ => .sendError) =
      (.httpError 400 "Invalid request payload", []) :=
  ⟨rfl, claim_C7 _ _ _ rfl⟩

/-! ## Claim C8 -/

/-- C8: a JSON object with a missing or empty `message` field is accepted
(decoding succeeds with the empty string), and the empty message is
forwarded as-is into the prompt wrapper of the single outbound call. -/
theorem claim_C8 (cfg : Config) (up : UpstreamRequest → UpstreamOutcome) :
    decodeChatRequest (.json (.obj [])) = some ⟨""⟩ ∧
    decodeChatRequest (.json (.obj [("message", .str "")])) = some ⟨""⟩ ∧
    (chatHandler cfg (.json (.obj [])) up).2 = [buildUpstreamRequest cfg ""] ∧
    (chatHandler cfg (.json (.obj [("message", .str "")])) up).2 =
      [buildUpstreamRequest cfg ""] ∧
    (buildUpstreamRequest cfg "").messages =
      [⟨"system", systemPrompt⟩,
       ⟨"user", formatPromptWithReferenceRequest ""⟩] :=
  ⟨rfl, rfl,
   chatHandler_calls cfg _ up ⟨""⟩ rfl,
   chatHandler_calls cfg _ up ⟨""⟩ rfl,
   rfl⟩

/-! ## Claim C9 -/

/-- C9: the handler is deterministic — with the same configuration, the
same inbound body and the same upstream oracle, two invocations produce
the same result (status/body and outbound-call list). -/
theorem claim_C9 (cfg : Config) (body : RequestBody)
    (up : UpstreamRequest → UpstreamOutcome)
    (r₁ r₂ : HandlerResult × List UpstreamRequest)
    (h₁ : chatHandler cfg body up = r₁)
    (h₂ : chatHandler cfg body up = r₂) : r₁ = r₂ := by
  rw [← h₁, ← h₂]

theorem claim_C9_witness :
    ((HandlerResult.httpError 400 "Invalid request payload",
        ([] : List UpstreamRequest)) =
      (HandlerResult.httpError 400 "Invalid request payload",
        ([] : List UpstreamRequest))) :=
  claim_C9 ⟨"k", "e", "se", "sk", "si"⟩ .notJson (fun _ => .sendError) _ _
    rfl rfl

/-! ## Claim C10 -/

/-- C10: every reference returned by `splitResponseAndReferences` is
non-blank and equal to its own trim, and the returned answer never
contains the literal marker "References:". -/
theorem claim_C10 (content : String) :
    (∀ r ∈ (splitResponseAndReferences content).2, r ≠ "" ∧ trimSpace r = r) ∧
    ¬ referencesMarker <:+: (splitResponseAndReferences content).1.data := by
  cases hs : splitOnce referencesMarker content.data with
  | none =>
    have hp := parse_of_no_marker content.data hs
    unfold splitResponseAndReferences
    rw [hp]
    constructor
    · intro r hr
      simp at hr
    · exact (splitOnce_none_iff referencesMarker referencesMarker_ne_nil
        content.data).mp hs
  | some p =>
    obtain ⟨b, a⟩ := p
    have hp := parse_of_marker content.data b a hs
    unfold splitResponseAndReferences
    rw [hp]
    dsimp only
    constructor
    · intro r hr
      simp only [List.mem_map] at hr
      obtain ⟨r', hr', rfl⟩ := hr
      unfold collectReferences at hr'
      simp only [List.mem_filterMap] at hr'
      obtain ⟨line, -, hline⟩ := hr'
      by_cases hni : trimSpaceList line = []
      · rw [if_pos hni] at hline
        cases hline
      · rw [if_neg hni] at hline
        obtain rfl := Option.some.inj hline
        constructor
        · intro hcon
          exact hni (by simpa using congrArg String.data hcon)
        · exact congrArg String.mk (trimSpaceList_idem line)
    · intro hinf
      have hnb := splitOnce_first_no_marker referencesMarker
        referencesMarker_ne_nil content.data b a hs
      apply hnb
      obtain ⟨s, t, hst⟩ := hinf
      obtain ⟨s', t', hsub⟩ := trimSpaceList_sub b
      refine ⟨s' ++ s, t ++ t', ?_⟩
      rw [← hsub, ← hst]
      simp [List.append_assoc]

theorem claim_C10_witness :
    (("b" : String) ≠ "" ∧ trimSpace "b" = "b") ∧
    ¬ referencesMarker <:+:
        (splitResponseAndReferences "a References: b").1.data :=
  ⟨(claim_C10 "a References: b").1 "b" (by decide),
   (claim_C10 "a References: b").2⟩
